import Mathlib

/-!
Verification of the EVS-Connector node catalog (helmut.cloud High5 nodes).

The repository contains several near-duplicate variants of one node:
  * `src/lib/nodes/EVSConnector.ts` (two variants separated in the file),
  * `src/lib/nodes/EVSConnectorPolling.ts`,
  * `src/unnamed/part_002` (a third variant of the same node),
  * `src/unnamed/part_001` (catalog entry plus a wavedoc describing a
    timeout-configurable polling node whose implementation is not in `src/`).

Strings are embedded as `List Char` (`Str`), JSON values as a mutual
inductive `Json`/`JsonList`/`JsonFields`, and `JSON.parse` as an executable
fuel-based recursive-descent parser (numbers are modelled as integers, which
covers every input relevant here).
-/

abbrev Str := List Char

/-- Whitespace recognised by JavaScript `String.prototype.trim`
(the ASCII part: space, tab, LF, VT, FF, CR; sufficient for the inputs of
this development). -/
def isSpaceJS (c : Char) : Bool :=
  c == ' ' || c == '\t' || c == '\n' || c == '\x0b' || c == '\x0c' || c == '\r'

/-- Left part of JS `trim`: drop leading whitespace. -/
def trimLeft (l : Str) : Str := l.dropWhile isSpaceJS

/-- Right part of JS `trim`: drop trailing whitespace. -/
def trimRight (l : Str) : Str := (l.reverse.dropWhile isSpaceJS).reverse

/-- JS `String.prototype.trim`. -/
def jsTrim (l : Str) : Str := trimRight (trimLeft l)

/-- JS `replace(/\x2f+$/g, "")`: strip trailing forward slashes. -/
def stripTrailingSlashes (l : Str) : Str :=
  (l.reverse.dropWhile (fun c => c == '/')).reverse

/-- JS `String.prototype.split` with a single-character-class separator
(`split(/[\x5c\x2f]/)` and friends). Splitting the empty string yields
one empty part, exactly as in JS. -/
def jsSplit (p : Char → Bool) : Str → List Str
  | [] => [[]]
  | c :: cs =>
    match jsSplit p cs with
    | [] => [[]]
    | s :: rest => if p c then [] :: s :: rest else (c :: s) :: rest

/-- The maximal separator-free suffix of `l`: the value of the last part
produced by `jsSplit p l`. -/
def lastRun (p : Char → Bool) (l : Str) : Str :=
  (l.reverse.takeWhile (fun c => !(p c))).reverse

/- ### jobNameFromPath (EVSConnector.ts line 167, EVSConnectorPolling.ts line 158,
part_002 line 242): `fileToTransfer.split(/[\x5c\x2f]/).pop() \x7c\x7c fileToTransfer` -/

/-- Path separator class used by the job-name derivation. -/
def isPathSep (c : Char) : Bool := c == '\\' || c == '/'

/-- Embeds the name derivation: split the path on forward and back slashes,
take the last part (`pop`), and fall back to the whole path when that part
is the empty string (JS falsy check). -/
def jobNameFromPath (path : Str) : Str :=
  let seg := ((jsSplit isPathSep path).getLast?).getD []
  if seg = [] then path else seg

/- ### normalizeBase, two variants.

Variant 1 (EVSConnector.ts lines 27-29 and EVSConnectorPolling.ts lines
27-29): `(hostUrl \x7c\x7c "").trim().replace(/\x2f+$/g, "")`.

Variant 2 (EVSConnector.ts lines 251-260): additionally prepends
`http://` when no scheme is present and appends `/evsconn/v1` unless the
URL already ends with it. -/

/-- Variant 1 of `normalizeBase`: trim, then strip trailing slashes. -/
def normalizeBase1 (hostUrl : Str) : Str := stripTrailingSlashes (jsTrim hostUrl)

/-- The API root segment appended by variant 2. -/
def apiRoot : Str := "/evsconn/v1".toList

/-- First reassignment of variant 2: prepend `http://` when the URL starts
with neither `http://` nor `https://`. -/
def addSchemeIfMissing (u : Str) : Str :=
  if ("http://".toList).isPrefixOf u || ("https://".toList).isPrefixOf u then u
  else ("http://".toList) ++ u

/-- Final step of variant 2: append `/evsconn/v1` unless the URL already
ends with it. -/
def ensureApiRoot (u : Str) : Str :=
  if apiRoot.isSuffixOf u then u else u ++ apiRoot

/-- Variant 2 of `normalizeBase`: trim, strip trailing slashes, prepend
the scheme when missing, and append the API root unless present. -/
def normalizeBase2 (hostUrl : Str) : Str :=
  ensureApiRoot (addSchemeIfMissing (stripTrailingSlashes (jsTrim hostUrl)))

/- ### JSON values.

`JSON.parse`/`JSON.stringify` and JS value coercions are modelled over a
mutual inductive (arrays and objects carry their own list types so that
all recursion stays structural). Numbers are modelled as integers and
string escapes cover the common cases; both are sufficient for every
input appearing in this development. Objects are modelled without
duplicate keys. -/

mutual
inductive Json where
  | null
  | bool (b : Bool)
  | num (n : Int)
  | str (s : Str)
  | arr (xs : JsonList)
  | obj (fs : JsonFields)
deriving DecidableEq
inductive JsonList where
  | nil
  | cons (hd : Json) (tl : JsonList)
deriving DecidableEq
inductive JsonFields where
  | nil
  | cons (key : Str) (val : Json) (tl : JsonFields)
deriving DecidableEq
end

def JsonList.toList : JsonList → List Json
  | .nil => []
  | .cons j tl => j :: tl.toList

def JsonList.ofList : List Json → JsonList
  | [] => .nil
  | j :: tl => .cons j (JsonList.ofList tl)

def JsonFields.toPairs : JsonFields → List (Str × Json)
  | .nil => []
  | .cons k v tl => (k, v) :: tl.toPairs

/-- First-match field lookup, the JS property access `o[key]` on a parsed
object (returns `none` for a missing property, i.e. JS `undefined`). -/
def JsonFields.lookup : JsonFields → Str → Option Json
  | .nil, _ => none
  | .cons k v tl, key => if k = key then some v else tl.lookup key

/-- JS optional-chain property access `o?.[key]`: `undefined` (`none`)
unless `o` is an object owning the property. -/
def jsonLookup (j : Json) (key : Str) : Option Json :=
  match j with
  | .obj fs => fs.lookup key
  | _ => none

/- Decimal and JS string coercion. -/

def natDecCore : Nat → Nat → Str
  | 0, _ => []
  | fuel + 1, n => if n = 0 then [] else natDecCore fuel (n / 10) ++ [Char.ofNat (48 + n % 10)]

def natToDec (n : Nat) : Str := if n = 0 then "0".toList else natDecCore n n

def intToDec (i : Int) : Str :=
  if i < 0 then '-' :: natToDec i.natAbs else natToDec i.natAbs

mutual
/-- JS `String(x)` on a JSON value: identity on strings, decimal on
numbers, `[object Object]` on plain objects, comma-joined elements on
arrays (with `null` rendered empty). -/
def jsToString : Json → Str
  | .null => "null".toList
  | .bool true => "true".toList
  | .bool false => "false".toList
  | .num n => intToDec n
  | .str s => s
  | .obj _ => "[object Object]".toList
  | .arr xs => jsArrJoin xs
def jsArrJoin : JsonList → Str
  | .nil => []
  | .cons .null .nil => []
  | .cons j .nil => jsToString j
  | .cons .null tl => ',' :: jsArrJoin tl
  | .cons j tl => jsToString j ++ ',' :: jsArrJoin tl
end

/- ### JSON.parse, as a fuel-based recursive-descent parser. -/

def skipWs (l : Str) : Str :=
  l.dropWhile (fun c => c == ' ' || c == '\t' || c == '\n' || c == '\r')

def unescapeChar (e : Char) : Option Char :=
  if e == '"' then some '"'
  else if e == '\\' then some '\\'
  else if e == '/' then some '/'
  else if e == 'n' then some '\n'
  else if e == 't' then some '\t'
  else if e == 'r' then some '\r'
  else if e == 'b' then some '\x08'
  else if e == 'f' then some '\x0c'
  else none

def parseStringBody : Str → Option (Str × Str)
  | [] => none
  | '"' :: rest => some ([], rest)
  | '\\' :: rest =>
    match rest with
    | [] => none
    | e :: rest2 =>
      match unescapeChar e, parseStringBody rest2 with
      | some c, some (s, r) => some (c :: s, r)
      | _, _ => none
  | c :: rest =>
    match parseStringBody rest with
    | some (s, r) => some (c :: s, r)
    | none => none

def parseDigits (l : Str) : Option (Nat × Str) :=
  match l.takeWhile Char.isDigit with
  | [] => none
  | ds => some (ds.foldl (fun a c => 10 * a + (c.toNat - 48)) 0, l.dropWhile Char.isDigit)

def parseNumber (l : Str) : Option (Int × Str) :=
  match l with
  | '-' :: rest => (parseDigits rest).map (fun p => (-(p.1 : Int), p.2))
  | _ => (parseDigits l).map (fun p => ((p.1 : Int), p.2))

def expectLit (lit : Str) (l : Str) : Option Str :=
  if lit.isPrefixOf l then some (l.drop lit.length) else none

mutual
def parseValue : Nat → Str → Option (Json × Str)
  | 0, _ => none
  | fuel + 1, l0 =>
    match skipWs l0 with
    | [] => none
    | '\x7b' :: rest =>
      (match skipWs rest with
        | '\x7d' :: r2 => some (.obj .nil, r2)
        | r1 => (parseFieldsList fuel r1).map (fun p => (Json.obj p.1, p.2)))
    | '[' :: rest =>
      (match skipWs rest with
        | ']' :: r2 => some (.arr .nil, r2)
        | r1 => (parseElemsList fuel r1).map (fun p => (Json.arr p.1, p.2)))
    | '"' :: rest => (parseStringBody rest).map (fun p => (Json.str p.1, p.2))
    | 't' :: rest => (expectLit ("rue".toList) rest).map (fun r => (Json.bool true, r))
    | 'f' :: rest => (expectLit ("alse".toList) rest).map (fun r => (Json.bool false, r))
    | 'n' :: rest => (expectLit ("ull".toList) rest).map (fun r => (Json.null, r))
    | l => (parseNumber l).map (fun p => (Json.num p.1, p.2))
def parseElemsList : Nat → Str → Option (JsonList × Str)
  | 0, _ => none
  | fuel + 1, l =>
    match parseValue fuel l with
    | none => none
    | some (v, r1) =>
      match skipWs r1 with
      | ']' :: r2 => some (.cons v .nil, r2)
      | ',' :: r2 =>
        (match parseElemsList fuel r2 with
          | some (vs, r3) => some (.cons v vs, r3)
          | none => none)
      | _ => none
def parseFieldsList : Nat → Str → Option (JsonFields × Str)
  | 0, _ => none
  | fuel + 1, l =>
    match skipWs l with
    | '"' :: rest =>
      (match parseStringBody rest with
        | none => none
        | some (k, r1) =>
          match skipWs r1 with
          | ':' :: r2 =>
            (match parseValue fuel r2 with
              | none => none
              | some (v, r3) =>
                match skipWs r3 with
                | '\x7d' :: r4 => some (.cons k v .nil, r4)
                | ',' :: r4 =>
                  (match parseFieldsList fuel r4 with
                    | some (fs, r5) => some (.cons k v fs, r5)
                    | none => none)
                | _ => none)
          | _ => none)
    | _ => none
end

/-- JS `JSON.parse` (returning `none` where the original throws). -/
def jsonParse (s : Str) : Option Json :=
  match parseValue (2 * s.length + 2) s with
  | some (j, rest) => if skipWs rest = [] then some j else none
  | none => none

/- ### extractJobId (EVSConnector.ts lines 93-100, EVSConnectorPolling.ts
lines 81-86, part_002 lines 213-222):
`String(obj?.jobId ?? obj?.id ?? obj?.data?.id ?? obj?.data?.jobId ?? "")`
after parsing string bodies. -/

/-- JS `a ?? b` on property-access results: `b` when `a` is `undefined`
(`none`) or `null`. -/
def jsOrElse (a b : Option Json) : Option Json :=
  match a with
  | none => b
  | some .null => b
  | some v => some v

/-- JS `o?.[key]` where `o` is itself an optional-chain result. -/
def optField (o : Option Json) (key : Str) : Option Json :=
  match o with
  | some v => jsonLookup v key
  | none => none

/-- The field-precedence chain of `extractJobId`, applied to the (already
parsed) response body. -/
def extractBody (obj : Json) : Str :=
  match jsOrElse (jsonLookup obj ("jobId".toList))
      (jsOrElse (jsonLookup obj ("id".toList))
        (jsOrElse (optField (jsonLookup obj ("data".toList)) ("id".toList))
          (optField (jsonLookup obj ("data".toList)) ("jobId".toList)))) with
  | some v => jsToString v
  | none => []

/-- `extractJobId`: parse string bodies first; a parse failure is caught
and yields the empty string. -/
def extractJobId (data : Json) : Str :=
  match data with
  | .str s =>
    match jsonParse s with
    | some j => extractBody j
    | none => []
  | _ => extractBody data

/- ### parseMetadata (EVSConnector.ts lines 73-91, EVSConnectorPolling.ts
lines 61-79; part_002 lines 177-210 differs only in the entry shape). -/

def isMetaSep (c : Char) : Bool := c == '\r' || c == '\n' || c == ';'

def isKVSpecial (c : Char) : Bool := c == '=' || c == ':' || c == '#'

/-- The regex `^\s*([^=:#]+)\s*[:=]\s*(.*)\s*$` applied to one part, with
both captured groups trimmed as in the source: a match exists exactly when
the first `=`/`:`/`#` character of the part is an `=` or `:` at a nonzero
position; the key is everything before it and the value everything after. -/
def kvMatch (p : Str) : Option (Str × Str) :=
  match p.dropWhile (fun c => !(isKVSpecial c)) with
  | [] => none
  | c :: after =>
    if p.takeWhile (fun c => !(isKVSpecial c)) = [] then none
    else if c = '#' then none
    else some (jsTrim (p.takeWhile (fun c => !(isKVSpecial c))), jsTrim after)

/-- A metadata entry built by the `id, name, value` variants. -/
def mdEntry (k v : Str) : Json :=
  Json.obj (.cons ("id".toList) (.str k)
    (.cons ("name".toList) (.str k)
      (.cons ("value".toList) (.str v) .nil)))

/-- A metadata entry built by the part_002 variant (no `name` field). -/
def mdEntryP2 (k v : Str) : Json :=
  Json.obj (.cons ("id".toList) (.str k)
    (.cons ("value".toList) (.str v) .nil))

/-- `txt.split(/[\r\n;]+/).map(trim).filter(Boolean)`: splitting on single
separator characters then dropping blank parts is equivalent to the
one-or-more regex split followed by the same filter. -/
def splitParts (txt : Str) : List Str :=
  ((jsSplit isMetaSep txt).map jsTrim).filter (fun part => !(part.isEmpty))

def lineFallback (txt : Str) : List Json :=
  (splitParts txt).filterMap (fun part => (kvMatch part).map (fun kv => mdEntry kv.1 kv.2))

def lineFallbackP2 (txt : Str) : List Json :=
  (splitParts txt).filterMap (fun part => (kvMatch part).map (fun kv => mdEntryP2 kv.1 kv.2))

/-- `parseMetadata` of EVSConnector.ts / EVSConnectorPolling.ts: JSON
arrays pass through as-is; JSON objects become `id`/`name`/`value` entries
with `String(...)`-coerced values; any other parse result and parse
failures fall through to line-based `key=value` parsing. -/
def parseMetadata (raw : Str) : List Json :=
  if raw = [] then []
  else if jsTrim raw = [] then []
  else
    match jsonParse (jsTrim raw) with
    | some (.arr xs) => xs.toList
    | some (.obj fs) => fs.toPairs.map (fun kv => mdEntry kv.1 (jsToString kv.2))
    | some _ => lineFallback (jsTrim raw)
    | none => lineFallback (jsTrim raw)

/-- `parseMetadata` of part_002 (entries without the `name` field). -/
def parseMetadataP2 (raw : Str) : List Json :=
  if raw = [] then []
  else if jsTrim raw = [] then []
  else
    match jsonParse (jsTrim raw) with
    | some (.arr xs) => xs.toList
    | some (.obj fs) => fs.toPairs.map (fun kv => mdEntryP2 kv.1 (jsToString kv.2))
    | some _ => lineFallbackP2 (jsTrim raw)
    | none => lineFallbackP2 (jsTrim raw)

/- ### prettyBody (EVSConnector.ts lines 31-41, both variants, and
EVSConnectorPolling.ts lines 31-41): pretty-print JSON-ish bodies with
`JSON.stringify(x, null, 2)`, otherwise `String(data)`. -/

def escC (c : Char) : Str :=
  if c = '"' then ['\\', '"']
  else if c = '\\' then ['\\', '\\']
  else if c = '\n' then ['\\', 'n']
  else if c = '\t' then ['\\', 't']
  else if c = '\r' then ['\\', 'r']
  else [c]

def escapeJson : Str → Str
  | [] => []
  | c :: cs => escC c ++ escapeJson cs

def spaces (n : Nat) : Str := List.replicate n ' '

mutual
/-- `JSON.stringify(j, null, 2)` at the current indentation level. -/
def stringify2 (ind : Nat) : Json → Str
  | .null => "null".toList
  | .bool true => "true".toList
  | .bool false => "false".toList
  | .num n => intToDec n
  | .str s => '"' :: (escapeJson s ++ ['"'])
  | .arr .nil => ['[', ']']
  | .arr xs => '[' :: '\n' :: (stringifyArr (ind + 2) xs ++ '\n' :: (spaces ind ++ [']']))
  | .obj .nil => ['\x7b', '\x7d']
  | .obj fs => '\x7b' :: '\n' :: (stringifyObj (ind + 2) fs ++ '\n' :: (spaces ind ++ ['\x7d']))
def stringifyArr (ind : Nat) : JsonList → Str
  | .nil => []
  | .cons j .nil => spaces ind ++ stringify2 ind j
  | .cons j tl => spaces ind ++ (stringify2 ind j ++ ',' :: '\n' :: stringifyArr ind tl)
def stringifyObj (ind : Nat) : JsonFields → Str
  | .nil => []
  | .cons k v .nil => spaces ind ++ ('"' :: (escapeJson k ++ '"' :: ':' :: ' ' :: stringify2 ind v))
  | .cons k v tl =>
    spaces ind ++ ('"' :: (escapeJson k ++ '"' :: ':' :: ' ' :: stringify2 ind v)) ++
      ',' :: '\n' :: stringifyObj ind tl
end

/-- JS falsiness of a JSON value (for `x || ""`). -/
def jsFalsy (j : Json) : Bool :=
  match j with
  | .null => true
  | .bool false => true
  | .num 0 => true
  | .str [] => true
  | _ => false

/-- `String(headers?.["content-type"] || "")`. -/
def contentTypeOf (headers : Json) : Str :=
  match jsonLookup headers ("content-type".toList) with
  | none => []
  | some v => if jsFalsy v then [] else jsToString v

def toLowerStr (s : Str) : Str := s.map Char.toLower

def containsSubstr (hay needle : Str) : Bool := decide (needle <:+: hay)

/-- `prettyBody(data, headers)`: pretty-print when the body looks like
JSON (object-typed data, which in JS includes arrays and `null`, or a
JSON content type), re-parsing string bodies; the catch on a failed parse
returns the raw string. -/
def prettyBody (data : Json) (headers : Json) : Str :=
  let isJson :=
    (match data with
      | .obj _ => true
      | .arr _ => true
      | .null => true
      | _ => false) ||
    containsSubstr (toLowerStr (contentTypeOf headers)) ("application/json".toList)
  if isJson then
    match data with
    | .str s =>
      match jsonParse s with
      | some j => stringify2 0 j
      | none => s
    | d => stringify2 0 d
  else
    match data with
    | .str s => s
    | d => jsToString d

/- ### clean and the payload assemblies. -/

/-- Whether `clean` keeps a defined value: it drops `null`, blank strings
and empty arrays (EVSConnector.ts lines 62-71, EVSConnectorPolling.ts
lines 50-59; `undefined` is the `none` case of the entry list). -/
def keepJson (v : Json) : Bool :=
  match v with
  | .null => false
  | .str s => !(jsTrim s).isEmpty
  | .arr .nil => false
  | _ => true

/-- `clean(obj)`: drop undefined/null entries, blank-string entries and
empty-array entries, keeping the remaining entries in order. -/
def cleanPayload (entries : List (Str × Option Json)) : List (Str × Json) :=
  entries.filterMap (fun kv =>
    match kv.2 with
    | none => none
    | some v => if keepJson v then some (kv.1, v) else none)

/-- `JSON.stringify` drops fields whose value is `undefined`; this gives
the fields of an (uncleaned) object literal that actually get serialized. -/
def definedFields (l : List (Str × Option Json)) : List (Str × Json) :=
  l.filterMap (fun kv => kv.2.map (fun v => (kv.1, v)))

def hexDigitChar (m : Nat) : Char :=
  if m < 10 then Char.ofNat (48 + m) else Char.ofNat (87 + m)

def jsHexCore : Nat → Nat → Str
  | 0, _ => []
  | fuel + 1, n => if n = 0 then [] else jsHexCore fuel (n / 16) ++ [hexDigitChar (n % 16)]

/-- JS `n.toString(16)` for a natural number. -/
def jsHexNat (n : Nat) : Str := if n = 0 then "0".toList else jsHexCore n n

/-- JS `String.prototype.padStart`. -/
def padStart (w : Nat) (c : Char) (s : Str) : Str := List.replicate (w - s.length) c ++ s

/-- `generateClientId` (EVSConnectorPolling.ts lines 88-92), with the
`Date.now()` value `t` and the floored `Math.random() * 0xffffffff`
value `r` taken as parameters. -/
def generateClientId (t r : Nat) : Str :=
  ((jsHexNat t) ++ padStart 8 '0' (jsHexNat r)).take 24

/-- The `metadatasetName` actually used by EVSConnectorPolling.ts line 161:
`metadata.length && !metadatasetNameRaw ? "general" : metadatasetNameRaw \x7c\x7c undefined`. -/
def resolvedMetadatasetName (meta ms : Str) : Option Str :=
  if parseMetadata meta ≠ [] ∧ jsTrim ms = [] then some ("general".toList)
  else if jsTrim ms ≠ [] then some (jsTrim ms)
  else none

/-- Payload assembly of EVSConnectorPolling.ts lines 163-173 (inputs are
the raw input strings; the `String(...).trim()` of `execute` is applied
here, as in the source). -/
def payloadPolling (clientId : Str) (tn tid prio ms ft meta : Str) : List (Str × Json) :=
  cleanPayload [
    ("id".toList, some (.str clientId)),
    ("name".toList, some (.str (jobNameFromPath (jsTrim ft)))),
    ("metadata".toList,
      if parseMetadata meta = [] then none
      else some (.arr (JsonList.ofList (parseMetadata meta)))),
    ("marker".toList, some (.arr .nil)),
    ("targetName".toList, some (.str (jsTrim tn))),
    ("targetId".toList, some (.str (jsTrim tid))),
    ("xsquarePriority".toList,
      if jsTrim prio = [] then none else some (.str (jsTrim prio))),
    ("metadatasetName".toList, (resolvedMetadatasetName meta ms).map Json.str),
    ("fileToTransfer".toList, some (.str (jsTrim ft)))]

/-- Payload assembly of EVSConnector.ts variant 1, lines 170-178 (no `id`
field; priority and metadataset name are passed to `clean` as possibly
blank strings). -/
def payloadV1 (tn tid prio ms ft meta : Str) : List (Str × Json) :=
  cleanPayload [
    ("name".toList, some (.str (jobNameFromPath (jsTrim ft)))),
    ("targetName".toList, some (.str (jsTrim tn))),
    ("targetId".toList, some (.str (jsTrim tid))),
    ("xsquarePriority".toList, some (.str (jsTrim prio))),
    ("metadatasetName".toList, some (.str (jsTrim ms))),
    ("fileToTransfer".toList, some (.str (jsTrim ft))),
    ("metadata".toList,
      if parseMetadata meta = [] then none
      else some (.arr (JsonList.ofList (parseMetadata meta))))]

/-- Payload assembly of part_002 lines 244-252: no `clean` is applied, the
optional strings use `\x7c\x7c undefined`, and `metadata` is always present,
even when `parseMetadata` produced the empty list. -/
def payloadP2 (tn tid prio ms ft meta : Str) : List (Str × Option Json) :=
  [("name".toList, some (.str (jobNameFromPath (jsTrim ft)))),
   ("targetName".toList, some (.str (jsTrim tn))),
   ("targetId".toList, some (.str (jsTrim tid))),
   ("xsquarePriority".toList,
     if jsTrim prio = [] then none else some (.str (jsTrim prio))),
   ("metadatasetName".toList,
     if jsTrim ms = [] then none else some (.str (jsTrim ms))),
   ("fileToTransfer".toList, some (.str (jsTrim ft))),
   ("metadata".toList, some (.arr (JsonList.ofList (parseMetadataP2 meta))))]

/- ### HTTP responses, postProgressive and the creation-error path. -/

structure Resp where
  status : Nat
  headers : Json
  data : Json
deriving DecidableEq

/-- The four header profiles tried by `postProgressive`
(EVSConnector.ts lines 102-118): no Content-Type, then three JSON
Content-Type spellings. -/
def contentTypeProfiles : List (Option Str) :=
  [none,
   some ("application/json".toList),
   some ("application/json; charset=UTF-8".toList),
   some ("application/json; charset=utf-8".toList)]

/-- The loop of `postProgressive`: issue the POST once per remaining
profile (`send i` is the response to the `i`-th transmission of the
identical url/body), return the first response whose status is not 415,
else the last response. The second component counts the requests sent. -/
def postProgAux (send : Nat → Resp) : List (Option Str) → Nat → Option Resp → Resp × Nat
  | [], i, last => (last.getD ⟨0, .null, .null⟩, i)
  | _ :: rest, i, _ =>
    if (send i).status ≠ 415 then (send i, i + 1)
    else postProgAux send rest (i + 1) (some (send i))

def postProgressive (send : Nat → Resp) : Resp × Nat :=
  postProgAux send contentTypeProfiles 0 none

/-- Output record of the node (EVSConnector.ts variant 1). A field is
`none` until `setOutput` assigns it. -/
structure NodeOutputs where
  status : Option Nat := none
  headers : Option Json := none
  body : Option Str := none
  runTime : Option Nat := none
  jobId : Option Str := none
  request : Option Str := none
deriving DecidableEq

/-- The message of the creation failure thrown at EVSConnector.ts
line 197. -/
def creationErrorMsg (status : Nat) (url : Str) : Str :=
  ("HTTP ".toList) ++ natToDec status ++ (" POST ".toList) ++ url

/-- EVSConnector.ts lines 183-209 after the POST resolved with `res`:
record status/headers/body/run-time/job-id outputs, then throw on
status >= 400. The catch block re-applies outputs only when the error is
an Axios error with a response; the creation failure thrown here is not,
so the catch only refreshes the run time (`e2`) and rethrows. The result
pairs the final outputs with the propagated error message, if any. -/
def recordCreationOutputs (res : Resp) (e1 : Nat) (o0 : NodeOutputs) : NodeOutputs :=
  { o0 with
    status := some res.status
    headers := some res.headers
    body := some (prettyBody res.data res.headers)
    runTime := some e1
    jobId := some (extractJobId res.data) }

def executePostPhase (url : Str) (res : Resp) (e1 e2 : Nat) (o0 : NodeOutputs) :
    NodeOutputs × Option Str :=
  if 400 ≤ res.status then
    ({ recordCreationOutputs res e1 o0 with runTime := some e2 },
      some (creationErrorMsg res.status url))
  else (recordCreationOutputs res e1 o0, none)

/- ### The timeout-configurable status poller.

The wavedoc in part_001 (inputs `Timeout (seconds)`, default 60, and
`Timeout As Failure`, default false; polling every 5 seconds) describes a
node variant whose implementation is not under `src/`; the following
definitions model that poller and its outcome resolution. -/

/-- Modelled from the spec: the per-poll snapshot of section 3
(`PollSnapshot`), status text plus last-known-good progress and body. -/
structure Snapshot where
  status : Str
  progress : Nat
  body : Json
deriving DecidableEq

inductive PollOutcome where
  | success
  | failure
  | timedOut
deriving DecidableEq

/-- Modelled from the spec: the result of the polling loop — outcome,
final snapshot, and the number of status fetches performed. -/
structure PollExit where
  outcome : PollOutcome
  snap : Snapshot
  cycles : Nat
deriving DecidableEq

/-- Modelled from the spec: section 4.3 steps 2-3 — on parse failure
retain the previous snapshot; otherwise take `status` when it is a string
and `progress` when it is numeric, retaining previous values otherwise. -/
def updateSnapshot (snap : Snapshot) (resp : Option Json) : Snapshot :=
  match resp with
  | none => snap
  | some j =>
    { status :=
        match jsonLookup j ("status".toList) with
        | some (.str s) => s
        | _ => snap.status
      progress :=
        match jsonLookup j ("progress".toList) with
        | some (.num n) => n.toNat
        | _ => snap.progress
      body := j }

def failVocab : List Str := [("failed".toList), ("canceled".toList), ("cancelled".toList)]

def successVocab : List Str := [("completed".toList), ("success".toList), ("successful".toList)]

/-- Modelled from the spec: terminal-failure vocabulary match
(case-insensitive). -/
def isFailureSnap (s : Snapshot) : Bool := failVocab.contains (toLowerStr s.status)

/-- Modelled from the spec: terminal-success — success vocabulary
(case-insensitive) or progress at least 100. -/
def isSuccessSnap (s : Snapshot) : Bool :=
  successVocab.contains (toLowerStr s.status) || decide (100 ≤ s.progress)

/-- Modelled from the spec: the polling loop of section 4.3 with the
5-second interval of the wavedoc. Each cycle first checks the deadline
(`timeout` seconds against the elapsed seconds), then fetches
(`stream i` is the parsed body of the `i`-th status fetch, `none` for an
unparsable body), updates the snapshot, exits on a terminal status, and
otherwise sleeps 5 seconds. The fuel argument only bounds the recursion
and is chosen large enough to never run out (see `pollAux_bound`). -/
def pollAux (stream : Nat → Option Json) :
    Nat → Nat → Nat → Nat → Snapshot → PollExit
  | 0, _, _, i, snap => ⟨.timedOut, snap, i⟩
  | fuel + 1, timeout, elapsed, i, snap =>
    if timeout ≤ elapsed then ⟨.timedOut, snap, i⟩
    else if isFailureSnap (updateSnapshot snap (stream i)) then
      ⟨.failure, updateSnapshot snap (stream i), i + 1⟩
    else if isSuccessSnap (updateSnapshot snap (stream i)) then
      ⟨.success, updateSnapshot snap (stream i), i + 1⟩
    else pollAux stream fuel timeout (elapsed + 5) (i + 1) (updateSnapshot snap (stream i))

/-- Modelled from the spec: run the polling loop with a configured timeout
in seconds, starting from the zero-progress snapshot. -/
def pollRun (stream : Nat → Option Json) (timeoutSec : Nat) : PollExit :=
  pollAux stream (timeoutSec + 1) timeoutSec 0 0 ⟨[], 0, .null⟩

/- ### Outcome resolution (Timeout As Failure). -/

/-- Modelled from the spec: the timeout error of section 4.4, naming the
elapsed seconds, the job id, the last status and the last progress. -/
def timeoutErrorMsg (elapsedSec : Nat) (jobId : Str) (snap : Snapshot) : Str :=
  ("Polling timed out after ".toList) ++ natToDec elapsedSec ++
    ("s for job ".toList) ++ jobId ++
    (": last status ".toList) ++ snap.status ++
    (", last progress ".toList) ++ natToDec snap.progress

/-- Modelled from the spec: the failure raised on a terminal
failure/cancel status, naming the job id and the last status. -/
def jobFailedMsg (jobId : Str) (snap : Snapshot) : Str :=
  ("Job ".toList) ++ jobId ++ (" ended with status ".toList) ++ snap.status

/-- Final outputs of a successful invocation: last status and progress. -/
structure PollFinal where
  status : Str
  progress : Nat
deriving DecidableEq

/-- Modelled from the spec: the outcome resolver of section 4.4. On
deadline expiry the boolean flag decides between finishing successfully
with the last observation and raising the timeout error. -/
def resolveOutcome (timeoutAsFailure : Bool) (jobId : Str) (e : PollExit) :
    Except Str PollFinal :=
  match e.outcome with
  | .success => .ok ⟨e.snap.status, e.snap.progress⟩
  | .failure => .error (jobFailedMsg jobId e.snap)
  | .timedOut =>
    if timeoutAsFailure then .error (timeoutErrorMsg (5 * e.cycles) jobId e.snap)
    else .ok ⟨e.snap.status, e.snap.progress⟩

/-- Modelled from the spec: poll then resolve. -/
def runPollingNode (flag : Bool) (jobId : Str) (stream : Nat → Option Json)
    (T : Nat) : Except Str PollFinal :=
  resolveOutcome flag jobId (pollRun stream T)

/-- A status stream that never reaches a terminal condition. -/
def steadyStream : Nat → Option Json :=
  fun _ => some (.obj (.cons ("status".toList) (.str ("EVS Checkin".toList))
    (.cons ("progress".toList) (.num 10) .nil)))

/-- The creation body of the claim's concrete example. -/
def fsSrv1 : JsonFields :=
  .cons ("id".toList) (.str ("srv-1".toList))
    (.cons ("status".toList) (.str ("EVS Checkin".toList)) .nil)

def urlEx : Str := "http://h/evsconn/v1/job".toList

def respEx500 : Resp :=
  ⟨500, .obj (.cons ("content-type".toList) (.str ("application/json".toList)) .nil),
    .str ("oops".toList)⟩

/-- The server behaviour for the C10 witness: 415 on the first request,
201 afterwards. -/
def sendEx : Nat → Resp :=
  fun i => if i = 0 then ⟨415, .null, .null⟩ else ⟨201, .null, .null⟩

/-! ## Lemmas and claim theorems -/

/- ### Generic list/trim lemmas -/

theorem dropWhile_self (p : Char → Bool) (l : Str) :
    (l.dropWhile p).dropWhile p = l.dropWhile p := by
  induction l with
  | nil => rfl
  | cons c cs ih =>
    by_cases h : p c
    · simp [List.dropWhile, h, ih]
    · simp [List.dropWhile, h]

theorem dropWhile_head_false {p : Char → Bool} {l : Str} {c : Char} {cs : Str}
    (h : l.dropWhile p = c :: cs) : p c = false := by
  induction l with
  | nil => simp [List.dropWhile] at h
  | cons a l ih =>
    by_cases ha : p a
    · exact ih (by simpa [List.dropWhile, ha] using h)
    · simp [List.dropWhile, ha] at h
      simp [← h.1, ha]

theorem dropWhile_cons_false {p : Char → Bool} {c : Char} {cs : Str}
    (h : p c = false) : (c :: cs).dropWhile p = c :: cs := by
  simp [List.dropWhile, h]

theorem trimLeft_trimLeft (l : Str) : trimLeft (trimLeft l) = trimLeft l :=
  dropWhile_self isSpaceJS l

theorem trimRight_trimRight (l : Str) : trimRight (trimRight l) = trimRight l := by
  simp [trimRight, dropWhile_self]

theorem trimRight_prefix_self (l : Str) : List.IsPrefix (trimRight l) l := by
  rcases List.dropWhile_suffix (l := l.reverse) (p := isSpaceJS) with ⟨t, ht⟩
  refine ⟨t.reverse, ?_⟩
  show (l.reverse.dropWhile isSpaceJS).reverse ++ t.reverse = l
  rw [← List.reverse_append, ht, List.reverse_reverse]

theorem trimLeft_of_trimRight_of_head {c : Char} {cs : Str}
    (h : isSpaceJS c = false) :
    trimLeft (trimRight (c :: cs)) = trimRight (c :: cs) := by
  rcases trimRight_prefix_self (c :: cs) with ⟨t, ht⟩
  cases htr : trimRight (c :: cs) with
  | nil => rfl
  | cons d ds =>
    rw [htr] at ht
    have hdc : d = c := by
      have : d :: (ds ++ t) = c :: cs := by simpa using ht
      exact (List.cons.injEq _ _ _ _ ▸ this).1
    subst hdc
    exact dropWhile_cons_false h

theorem jsTrim_idem (l : Str) : jsTrim (jsTrim l) = jsTrim l := by
  unfold jsTrim
  cases ha : trimLeft l with
  | nil => rfl
  | cons c cs =>
    have hc : isSpaceJS c = false := dropWhile_head_false ha
    rw [trimLeft_of_trimRight_of_head hc, trimRight_trimRight]

theorem jsTrim_eq_nil_iff (l : Str) :
    jsTrim l = [] ↔ ∀ c ∈ l, isSpaceJS c = true := by
  constructor
  · intro h c hc
    have hsplit := List.takeWhile_append_dropWhile (p := isSpaceJS) (l := l)
    unfold jsTrim trimRight at h
    have h2 : (trimLeft l).reverse.dropWhile isSpaceJS = [] := by
      cases hd : (trimLeft l).reverse.dropWhile isSpaceJS with
      | nil => rfl
      | cons a b => simp [hd] at h
    have hall : ∀ x ∈ (trimLeft l).reverse, isSpaceJS x = true := by
      intro x hx
      exact List.dropWhile_eq_nil_iff.mp h2 x hx
    have hall2 : ∀ x ∈ trimLeft l, isSpaceJS x = true := by
      intro x hx; exact hall x (by simpa using hx)
    rw [← hsplit] at hc
    rcases List.mem_append.mp hc with h1 | h1
    · exact List.mem_takeWhile_imp h1
    · exact hall2 c h1
  · intro h
    have h1 : trimLeft l = [] :=
      List.dropWhile_eq_nil_iff.mpr (fun x hx => h x hx)
    simp [jsTrim, h1, trimRight]

theorem jsTrim_ne_nil_of_mem {l : Str} {c : Char}
    (hc : c ∈ l) (hs : isSpaceJS c = false) : jsTrim l ≠ [] := by
  intro h
  have := (jsTrim_eq_nil_iff l).mp h c hc
  rw [hs] at this
  exact Bool.false_ne_true this

theorem jsTrim_subset (l : Str) : ∀ c ∈ jsTrim l, c ∈ l := by
  intro c hc
  have h1 : List.IsPrefix (jsTrim l) (trimLeft l) := trimRight_prefix_self (trimLeft l)
  have h2 : List.IsSuffix (trimLeft l) l := List.dropWhile_suffix isSpaceJS
  exact h2.subset (h1.subset hc)

theorem jsSplit_ne_nil (p : Char → Bool) (l : Str) : jsSplit p l ≠ [] := by
  cases l with
  | nil => simp [jsSplit]
  | cons c cs =>
    simp only [jsSplit]
    cases h : jsSplit p cs with
    | nil => simp
    | cons s rest =>
      by_cases hp : p c <;> simp [hp]

theorem jsSplit_cons (p : Char → Bool) (a : Char) (as : Str) :
    jsSplit p (a :: as) =
      match jsSplit p as with
      | [] => [[]]
      | s :: rest => if p a then [] :: s :: rest else (a :: s) :: rest := rfl

theorem jsSplit_mem_subset (p : Char → Bool) (l : Str) :
    ∀ x ∈ jsSplit p l, ∀ c ∈ x, c ∈ l := by
  induction l with
  | nil =>
    intro x hx c hc
    simp [jsSplit] at hx
    subst hx
    simp at hc
  | cons a as ih =>
    intro x hx c hc
    cases h : jsSplit p as with
    | nil => exact absurd h (jsSplit_ne_nil p as)
    | cons s rest =>
      have key : jsSplit p (a :: as) =
          if p a then [] :: s :: rest else (a :: s) :: rest := by
        rw [jsSplit_cons, h]
      rw [key] at hx
      have ihs : ∀ y ∈ s :: rest, ∀ d ∈ y, d ∈ as := by
        intro y hy
        exact ih y (h ▸ hy)
      by_cases hp : p a
      · rw [if_pos hp] at hx
        rcases List.mem_cons.mp hx with hx0 | hx1
        · subst hx0; simp at hc
        · exact List.mem_cons_of_mem a (ihs x hx1 c hc)
      · rw [if_neg hp] at hx
        rcases List.mem_cons.mp hx with hx0 | hx1
        · subst hx0
          rcases List.mem_cons.mp hc with hca | hcs
          · exact hca ▸ List.mem_cons_self a as
          · exact List.mem_cons_of_mem a (ihs s (List.mem_cons_self s rest) c hcs)
        · exact List.mem_cons_of_mem a (ihs x (List.mem_cons_of_mem s hx1) c hc)

theorem takeWhile_append_fail {q : Char → Bool} {a : Str} {c : Char} (b : Str)
    (hall : ∀ x ∈ a, q x = true) (hc : q c = false) :
    (a ++ c :: b).takeWhile q = a := by
  induction a with
  | nil => rw [List.nil_append, List.takeWhile_cons_of_neg (by simp [hc])]
  | cons x xs ih =>
    have hx : q x = true := hall x (List.mem_cons_self x xs)
    rw [List.cons_append, List.takeWhile_cons_of_pos hx,
      ih (fun y hy => hall y (List.mem_cons_of_mem x hy))]

theorem takeWhile_append_of_stop {q : Char → Bool} {a : Str} (b : Str)
    (h : ∃ x ∈ a, q x = false) :
    (a ++ b).takeWhile q = a.takeWhile q := by
  induction a with
  | nil => rcases h with ⟨x, hx, _⟩; simp at hx
  | cons x xs ih =>
    by_cases hx : q x
    · rcases h with ⟨y, hy, hqy⟩
      rcases List.mem_cons.mp hy with hyx | hys
      · rw [hyx] at hqy; rw [hqy] at hx; exact absurd hx (by simp)
      · rw [List.cons_append, List.takeWhile_cons_of_pos hx,
          List.takeWhile_cons_of_pos hx, ih ⟨y, hys, hqy⟩]
    · rw [List.cons_append, List.takeWhile_cons_of_neg (by simpa using hx),
        List.takeWhile_cons_of_neg (by simpa using hx)]

theorem lastRun_cons_sep {p : Char → Bool} {c : Char} (cs : Str)
    (hc : p c = true) : lastRun p (c :: cs) = lastRun p cs := by
  unfold lastRun
  rw [List.reverse_cons]
  congr 1
  by_cases hstop : ∃ x ∈ cs.reverse, (!(p x)) = false
  · rw [takeWhile_append_of_stop [c] hstop]
  · push_neg at hstop
    have hall : ∀ x ∈ cs.reverse, (!(p x)) = true := by
      intro x hx
      cases hb : !(p x)
      · exact absurd hb (hstop x hx)
      · rfl
    rw [takeWhile_append_fail ([]) hall (by simp [hc]),
      List.takeWhile_eq_self_iff.mpr hall]

theorem lastRun_cons_of_mem_sep {p : Char → Bool} {c : Char} {cs : Str}
    (h : ∃ d ∈ cs, p d = true) : lastRun p (c :: cs) = lastRun p cs := by
  unfold lastRun
  rw [List.reverse_cons]
  congr 1
  rcases h with ⟨d, hd, hpd⟩
  exact takeWhile_append_of_stop [c] ⟨d, by simpa using hd, by simp [hpd]⟩

theorem lastRun_no_sep {p : Char → Bool} {l : Str}
    (h : ∀ c ∈ l, p c = false) : lastRun p l = l := by
  unfold lastRun
  rw [List.takeWhile_eq_self_iff.mpr, List.reverse_reverse]
  intro x hx
  simp [h x (by simpa using hx)]

theorem jsSplit_no_sep {p : Char → Bool} {l : Str}
    (h : ∀ c ∈ l, p c = false) : jsSplit p l = [l] := by
  induction l with
  | nil => rfl
  | cons c cs ih =>
    have hc : p c = false := h c (List.mem_cons_self c cs)
    have hcs := ih (fun x hx => h x (List.mem_cons_of_mem c hx))
    simp [jsSplit, hcs, hc]

theorem jsSplit_decomp (p : Char → Bool) (l : Str) :
    ∃ init, jsSplit p l = init ++ [lastRun p l] ∧
      (init = [] ↔ ∀ c ∈ l, p c = false) := by
  induction l with
  | nil =>
    exact ⟨[], by simp [jsSplit, lastRun], by simp⟩
  | cons c cs ih =>
    rcases ih with ⟨init, hsplit, hiff⟩
    cases h : jsSplit p cs with
    | nil => exact absurd h (jsSplit_ne_nil p cs)
    | cons s rest =>
      rw [h] at hsplit
      have key : jsSplit p (c :: cs) =
          if p c then [] :: s :: rest else (c :: s) :: rest := by
        rw [jsSplit_cons, h]
      by_cases hc : p c
      · refine ⟨[] :: init, ?_, ?_⟩
        · rw [key, if_pos hc, lastRun_cons_sep cs hc, List.cons_append, hsplit]
        · constructor
          · intro hctr; simp at hctr
          · intro hctr
            have := hctr c (List.mem_cons_self c cs)
            rw [hc] at this
            exact absurd this (by simp)
      · cases hinit : init with
        | nil =>
          rw [hinit] at hsplit hiff
          have hnos : ∀ x ∈ cs, p x = false := hiff.mp rfl
          have hall : ∀ x ∈ c :: cs, p x = false := by
            intro x hx
            rcases List.mem_cons.mp hx with h1 | h1
            · rw [h1]; simpa using hc
            · exact hnos x h1
          have hs : s = lastRun p cs := by
            have := hsplit
            simp at this
            exact this.1
          have hrest : rest = [] := by
            have := hsplit
            simp at this
            exact this.2
          refine ⟨[], ?_, ⟨fun _ => hall, fun _ => rfl⟩⟩
          rw [key, if_neg hc, hs, hrest, lastRun_no_sep hnos,
            lastRun_no_sep hall]
          rfl
        | cons i0 irest =>
          rw [hinit] at hsplit hiff
          have hex : ∃ d ∈ cs, p d = true := by
            by_contra hno
            push_neg at hno
            have hfa : ∀ x ∈ cs, p x = false := by
              intro x hx
              cases hb : p x
              · rfl
              · exact absurd hb (hno x hx)
            have := hiff.mpr hfa
            simp at this
          have hs : s = i0 ∧ rest = irest ++ [lastRun p cs] := by
            have := hsplit
            rw [List.cons_append] at this
            exact ⟨(List.cons.injEq _ _ _ _ ▸ this).1, (List.cons.injEq _ _ _ _ ▸ this).2⟩
          refine ⟨(c :: i0) :: irest, ?_, ?_⟩
          · rw [key, if_neg hc, lastRun_cons_of_mem_sep hex, hs.1, hs.2]
            rfl
          · constructor
            · intro hctr; simp at hctr
            · intro hctr
              rcases hex with ⟨d, hd, hpd⟩
              have := hctr d (List.mem_cons_of_mem c hd)
              rw [hpd] at this
              exact absurd this (by simp)

theorem jobNameFromPath_eq_lastRun (path : Str) :
    jobNameFromPath path =
      (if lastRun isPathSep path = [] then path else lastRun isPathSep path) := by
  rcases jsSplit_decomp isPathSep path with ⟨init, hs, _⟩
  unfold jobNameFromPath
  rw [hs, List.getLast?_concat]
  rfl

theorem addScheme_start (u : Str) :
    ("http://".toList) <+: addSchemeIfMissing u ∨
      ("https://".toList) <+: addSchemeIfMissing u := by
  unfold addSchemeIfMissing
  by_cases hsch : (("http://".toList).isPrefixOf u || ("https://".toList).isPrefixOf u) = true
  · rw [if_pos hsch]
    rcases Bool.or_eq_true_iff.mp hsch with h | h
    · exact Or.inl ( List.isPrefixOf_iff_prefix.mp h)
    · exact Or.inr ( List.isPrefixOf_iff_prefix.mp h)
  · rw [if_neg hsch]
    exact Or.inl (List.prefix_append _ u)

theorem ensureApiRoot_suffix (u : Str) : ∃ t, ensureApiRoot u = t ++ apiRoot := by
  unfold ensureApiRoot
  by_cases hsuf : apiRoot.isSuffixOf u = true
  · rw [if_pos hsuf]
    rcases List.isSuffixOf_iff_suffix.mp hsuf with ⟨t, ht⟩
    exact ⟨t, ht.symm⟩
  · rw [if_neg hsuf]
    exact ⟨u, rfl⟩

theorem ensureApiRoot_keeps_start {s u : Str} (h : s <+: u) :
    s <+: ensureApiRoot u := by
  unfold ensureApiRoot
  by_cases hsuf : apiRoot.isSuffixOf u = true
  · rw [if_pos hsuf]; exact h
  · rw [if_neg hsuf]; exact h.trans (List.prefix_append u apiRoot)

theorem normalizeBase2_shape (u : Str) :
    ∃ t, normalizeBase2 u = t ++ apiRoot ∧
      (("http://".toList) <+: normalizeBase2 u ∨
        ("https://".toList) <+: normalizeBase2 u) := by
  rcases ensureApiRoot_suffix (addSchemeIfMissing (stripTrailingSlashes (jsTrim u))) with ⟨t, ht⟩
  refine ⟨t, ht, ?_⟩
  rcases addScheme_start (stripTrailingSlashes (jsTrim u)) with h | h
  · exact Or.inl (ensureApiRoot_keeps_start h)
  · exact Or.inr (ensureApiRoot_keeps_start h)

theorem apiRoot_reverse : apiRoot.reverse = '1' :: ("v/nnocsve/".toList) := by decide

theorem normalizeBase2_last_shape (u : Str) :
    ∃ s, (normalizeBase2 u).reverse = '1' :: s := by
  rcases normalizeBase2_shape u with ⟨t, ht, _⟩
  refine ⟨("v/nnocsve/".toList) ++ t.reverse, ?_⟩
  rw [ht, List.reverse_append, apiRoot_reverse]
  rfl

theorem normalizeBase2_head_shape (u : Str) :
    ∃ s, normalizeBase2 u = 'h' :: s := by
  rcases normalizeBase2_shape u with ⟨_, _, hpre | hpre⟩
  · rcases hpre with ⟨t, ht⟩
    exact ⟨("ttp://".toList) ++ t, by rw [← ht]; rfl⟩
  · rcases hpre with ⟨t, ht⟩
    exact ⟨("ttps://".toList) ++ t, by rw [← ht]; rfl⟩

theorem normalizeBase2_idem (u : Str) :
    normalizeBase2 (normalizeBase2 u) = normalizeBase2 u := by
  rcases normalizeBase2_shape u with ⟨t, ht, hpre⟩
  rcases normalizeBase2_last_shape u with ⟨s1, hrev⟩
  rcases normalizeBase2_head_shape u with ⟨s0, hhead⟩
  set r := normalizeBase2 u with hr
  have htrim : jsTrim r = r := by
    unfold jsTrim
    have h1 : trimLeft r = r := by
      rw [hhead]
      exact dropWhile_cons_false (by decide)
    rw [h1]
    unfold trimRight
    rw [hrev, dropWhile_cons_false (by decide), ← hrev, List.reverse_reverse]
  have hstrip : stripTrailingSlashes r = r := by
    unfold stripTrailingSlashes
    rw [hrev, dropWhile_cons_false (by decide), ← hrev, List.reverse_reverse]
  have hsch : (("http://".toList).isPrefixOf r || ("https://".toList).isPrefixOf r) = true := by
    rcases hpre with h | h
    · exact Bool.or_inl ( List.isPrefixOf_iff_prefix.mpr h)
    · exact Bool.or_inr ( List.isPrefixOf_iff_prefix.mpr h)
  have hsuf : apiRoot.isSuffixOf r = true :=
    List.isSuffixOf_iff_suffix.mpr ⟨t, ht.symm⟩
  show ensureApiRoot (addSchemeIfMissing (stripTrailingSlashes (jsTrim r))) = r
  rw [htrim, hstrip]
  unfold addSchemeIfMissing ensureApiRoot
  rw [if_pos hsch, if_pos hsuf]

theorem normalizeBase2_endsWith (u : Str) : apiRoot <:+ normalizeBase2 u := by
  rcases normalizeBase2_shape u with ⟨t, ht, _⟩
  exact ⟨t, ht.symm⟩

example : jsonParse ("\x7b\"id\":\"srv-1\",\"status\":\"EVS Checkin\"\x7d".toList) =
    some (.obj (.cons ("id".toList) (.str ("srv-1".toList))
      (.cons ("status".toList) (.str ("EVS Checkin".toList)) .nil))) := by decide

example : jsonParse ("not json".toList) = none := by decide

example : jsonParse ("[1, -2]".toList) =
    some (.arr (.cons (.num 1) (.cons (.num (-2)) .nil))) := by decide

example : parseMetadata ("[\x7b\"id\":\"title\",\"value\":\"My Clip\"\x7d]".toList) =
    [Json.obj (.cons ("id".toList) (.str ("title".toList))
      (.cons ("value".toList) (.str ("My Clip".toList)) .nil))] := by decide

example : parseMetadata ("\x7b\"show\":\"Sports\"\x7d".toList) =
    [mdEntry ("show".toList) ("Sports".toList)] := by decide

example : parseMetadata ("not json".toList) = [] := by decide

example : parseMetadata ("title=Clip 01;show=Sports".toList) =
    [mdEntry ("title".toList) ("Clip 01".toList),
     mdEntry ("show".toList) ("Sports".toList)] := by decide

theorem pollAux_cycle_bound (stream : Nat → Option Json) :
    ∀ (fuel timeout i : Nat) (snap : Snapshot),
      timeout ≤ 5 * i + 5 * fuel →
      ((pollAux stream fuel timeout (5 * i) i snap).cycles = i ∧ timeout ≤ 5 * i) ∨
      (i < (pollAux stream fuel timeout (5 * i) i snap).cycles ∧
        5 * (pollAux stream fuel timeout (5 * i) i snap).cycles < timeout + 5) := by
  intro fuel
  induction fuel with
  | zero =>
    intro timeout i snap h
    left
    exact ⟨rfl, by omega⟩
  | succ fuel ih =>
    intro timeout i snap h
    by_cases hd : timeout ≤ 5 * i
    · left
      exact ⟨by simp only [pollAux, if_pos hd], hd⟩
    · by_cases hf : isFailureSnap (updateSnapshot snap (stream i)) = true
      · right
        simp only [pollAux, if_neg hd, if_pos hf]
        omega
      · by_cases hs : isSuccessSnap (updateSnapshot snap (stream i)) = true
        · right
          simp only [pollAux, if_neg hd, if_neg hf, if_pos hs]
          omega
        · have h5 : 5 * (i + 1) = 5 * i + 5 := by ring
          have hrw : pollAux stream (fuel + 1) timeout (5 * i) i snap =
              pollAux stream fuel timeout (5 * (i + 1)) (i + 1)
                (updateSnapshot snap (stream i)) := by
            simp only [pollAux, if_neg hd, if_neg hf, if_neg hs, h5]
          rw [hrw]
          rcases ih timeout (i + 1) (updateSnapshot snap (stream i)) (by omega) with
            ⟨hc, ht⟩ | ⟨hc, ht⟩
          · right
            rw [hc]
            omega
          · right
            exact ⟨by omega, ht⟩

theorem pollAux_timeout_of_no_terminal (stream : Nat → Option Json)
    (hnt : ∀ i snap, isFailureSnap (updateSnapshot snap (stream i)) = false ∧
      isSuccessSnap (updateSnapshot snap (stream i)) = false) :
    ∀ (fuel timeout i : Nat) (snap : Snapshot),
      timeout ≤ 5 * i + 5 * fuel →
      (pollAux stream fuel timeout (5 * i) i snap).outcome = .timedOut ∧
      timeout ≤ 5 * (pollAux stream fuel timeout (5 * i) i snap).cycles := by
  intro fuel
  induction fuel with
  | zero =>
    intro timeout i snap h
    exact ⟨rfl, by show timeout ≤ 5 * i; omega⟩
  | succ fuel ih =>
    intro timeout i snap h
    by_cases hd : timeout ≤ 5 * i
    · refine ⟨by simp only [pollAux, if_pos hd], ?_⟩
      have hc : (pollAux stream (fuel + 1) timeout (5 * i) i snap).cycles = i := by
        simp only [pollAux, if_pos hd]
      rw [hc]
      omega
    · have hf : isFailureSnap (updateSnapshot snap (stream i)) = false := (hnt i snap).1
      have hs : isSuccessSnap (updateSnapshot snap (stream i)) = false := (hnt i snap).2
      have h5 : 5 * (i + 1) = 5 * i + 5 := by ring
      have hrw : pollAux stream (fuel + 1) timeout (5 * i) i snap =
          pollAux stream fuel timeout (5 * (i + 1)) (i + 1)
            (updateSnapshot snap (stream i)) := by
        simp only [pollAux, if_neg hd, hf, hs, h5]
        simp only [Bool.false_eq_true, if_false]
      rw [hrw]
      exact ih timeout (i + 1) (updateSnapshot snap (stream i)) (by omega)

/-- C1: with a configured timeout of `T` seconds (default 60), polling
never continues past the deadline — with the 5-second interval, the number
of status fetches `n` always satisfies `5 * n < T + 5`, i.e. every fetch
happens strictly before the deadline — and when no fetch produces a
terminal status the loop exits with the timed-out outcome, at the first
cycle whose start lies at or past the deadline. (The poller is modelled
from the spec: no implementation with a configurable timeout exists under
`src/`.) -/
theorem C1_poll_deadline (stream : Nat → Option Json) (T : Nat) :
    5 * (pollRun stream T).cycles < T + 5 ∧
    ((∀ i snap, isFailureSnap (updateSnapshot snap (stream i)) = false ∧
        isSuccessSnap (updateSnapshot snap (stream i)) = false) →
      (pollRun stream T).outcome = .timedOut ∧ T ≤ 5 * (pollRun stream T).cycles) := by
  constructor
  · have h := pollAux_cycle_bound stream (T + 1) T 0 ⟨[], 0, .null⟩ (by omega)
    simp only [Nat.mul_zero] at h
    rcases h with ⟨hc, _⟩ | ⟨_, hb⟩
    · unfold pollRun
      rw [hc]
      omega
    · exact hb
  · intro hnt
    have h := pollAux_timeout_of_no_terminal stream hnt (T + 1) T 0 ⟨[], 0, .null⟩ (by omega)
    simp only [Nat.mul_zero] at h
    exact h

/-- C1 witness: at the default timeout of 60 seconds and a stream that
always reports the non-terminal status `EVS Checkin`, the loop exits
timed-out after exactly 12 fetches (at 0,5,...,55 seconds). -/
theorem C1_poll_deadline_witness :
    (pollRun steadyStream 60).outcome = .timedOut ∧
    60 ≤ 5 * (pollRun steadyStream 60).cycles ∧
    5 * (pollRun steadyStream 60).cycles < 65 := by
  have h := C1_poll_deadline steadyStream 60
  have hnt : ∀ i snap, isFailureSnap (updateSnapshot snap (steadyStream i)) = false ∧
      isSuccessSnap (updateSnapshot snap (steadyStream i)) = false := by
    intro i snap
    exact ⟨rfl, rfl⟩
  exact ⟨(h.2 hnt).1, (h.2 hnt).2, h.1⟩

/-- C2: when the polling loop exits because the deadline expired, the
Timeout-As-Failure flag decides the outcome: with the flag false (the
default) the invocation completes successfully carrying the last observed
status and progress; with the flag true it raises a timeout error whose
message names the elapsed seconds, the job id, the last status and the
last progress. (Modelled from the spec, as for C1.) -/
theorem C2_timeout_outcome (jobId : Str) (stream : Nat → Option Json) (T : Nat)
    (h : (pollRun stream T).outcome = .timedOut) :
    runPollingNode false jobId stream T =
      .ok ⟨(pollRun stream T).snap.status, (pollRun stream T).snap.progress⟩ ∧
    ∃ msg, runPollingNode true jobId stream T = .error msg ∧
      natToDec (5 * (pollRun stream T).cycles) <:+: msg ∧
      jobId <:+: msg ∧
      (pollRun stream T).snap.status <:+: msg ∧
      natToDec ((pollRun stream T).snap.progress) <:+: msg := by
  constructor
  · simp [runPollingNode, resolveOutcome, h]
  · refine ⟨timeoutErrorMsg (5 * (pollRun stream T).cycles) jobId (pollRun stream T).snap,
      ?_, ?_, ?_, ?_, ?_⟩
    · simp [runPollingNode, resolveOutcome, h]
    · exact ⟨("Polling timed out after ".toList),
        ("s for job ".toList) ++ jobId ++ (": last status ".toList) ++
          (pollRun stream T).snap.status ++ (", last progress ".toList) ++
          natToDec (pollRun stream T).snap.progress,
        by simp [timeoutErrorMsg, List.append_assoc]⟩
    · exact ⟨("Polling timed out after ".toList) ++
        natToDec (5 * (pollRun stream T).cycles) ++ ("s for job ".toList),
        (": last status ".toList) ++ (pollRun stream T).snap.status ++
          (", last progress ".toList) ++ natToDec (pollRun stream T).snap.progress,
        by simp [timeoutErrorMsg, List.append_assoc]⟩
    · exact ⟨("Polling timed out after ".toList) ++
        natToDec (5 * (pollRun stream T).cycles) ++ ("s for job ".toList) ++ jobId ++
          (": last status ".toList),
        (", last progress ".toList) ++ natToDec (pollRun stream T).snap.progress,
        by simp [timeoutErrorMsg, List.append_assoc]⟩
    · exact ⟨("Polling timed out after ".toList) ++
        natToDec (5 * (pollRun stream T).cycles) ++ ("s for job ".toList) ++ jobId ++
          (": last status ".toList) ++ (pollRun stream T).snap.status ++
          (", last progress ".toList),
        [],
        by simp [timeoutErrorMsg, List.append_assoc]⟩

/-- C2 witness: the same deadline-expiring run as for C1, resolved with
both flag values. -/
theorem C2_timeout_outcome_witness :
    runPollingNode false ("job-1".toList) steadyStream 60 =
      .ok ⟨(pollRun steadyStream 60).snap.status, (pollRun steadyStream 60).snap.progress⟩ ∧
    ∃ msg, runPollingNode true ("job-1".toList) steadyStream 60 = .error msg ∧
      natToDec (5 * (pollRun steadyStream 60).cycles) <:+: msg ∧
      ("job-1".toList) <:+: msg ∧
      (pollRun steadyStream 60).snap.status <:+: msg ∧
      natToDec ((pollRun steadyStream 60).snap.progress) <:+: msg :=
  C2_timeout_outcome ("job-1".toList) steadyStream 60 (by decide)

/- ### Claim C3: job-id resolution precedence. -/

theorem jsOrElse_some_of_ne_null {v : Json} (hv : v ≠ .null) (b : Option Json) :
    jsOrElse (some v) b = some v := by
  cases v with
  | null => exact absurd rfl hv
  | bool b2 => rfl
  | num n => rfl
  | str s => rfl
  | arr xs => rfl
  | obj fs => rfl

/-- C3 counterexample: for a creation body carrying both an `id` and a
`jobId` field, the code resolves the `jobId` field, not the `id` field the
claim gives precedence to. -/
theorem C3_precedence_counterexample :
    extractJobId (.obj (.cons ("id".toList) (.str ("A".toList))
        (.cons ("jobId".toList) (.str ("B".toList)) .nil))) = ("B".toList) ∧
    ("B".toList) ≠ ("A".toList) := by decide

/-- C3 (amended): the resolved job id follows the precedence `jobId`, then
`id`, then `data.id`, then `data.jobId` (each skipped when absent or
null); a string body is parsed as structured data first, an unparsable
string body resolves to the empty string; and when no field matches the
result is the empty string — the client-generated id is not substituted.
The claim's concrete example still holds: a body with only `id = srv-1`
resolves to `srv-1`. -/
theorem C3_extractJobId_spec (s : Str) (fs : JsonFields) (v : Json) :
    (fs.lookup ("jobId".toList) = some v → v ≠ .null →
      extractJobId (.obj fs) = jsToString v) ∧
    ((fs.lookup ("jobId".toList) = none ∨ fs.lookup ("jobId".toList) = some .null) →
      fs.lookup ("id".toList) = some v → v ≠ .null →
      extractJobId (.obj fs) = jsToString v) ∧
    (∀ j, jsonParse s = some j → extractJobId (.str s) = extractBody j) ∧
    (jsonParse s = none → extractJobId (.str s) = []) ∧
    ((fs.lookup ("jobId".toList) = none ∨ fs.lookup ("jobId".toList) = some .null) →
      (fs.lookup ("id".toList) = none ∨ fs.lookup ("id".toList) = some .null) →
      (fs.lookup ("data".toList) = none ∨ fs.lookup ("data".toList) = some .null) →
      extractJobId (.obj fs) = []) := by
  refine ⟨?_, ?_, ?_, ?_, ?_⟩
  · intro h1 hv
    show extractBody (.obj fs) = jsToString v
    unfold extractBody
    simp only [jsonLookup, h1, jsOrElse_some_of_ne_null hv]
  · intro h0 h1 hv
    show extractBody (.obj fs) = jsToString v
    unfold extractBody
    rcases h0 with h0 | h0 <;>
      simp only [jsonLookup, h0, jsOrElse, h1, jsOrElse_some_of_ne_null hv]
  · intro j hp
    simp only [extractJobId, hp]
  · intro hp
    simp only [extractJobId, hp]
  · intro h0 h1 h2
    show extractBody (.obj fs) = []
    unfold extractBody
    rcases h0 with h0 | h0 <;> rcases h1 with h1 | h1 <;> rcases h2 with h2 | h2 <;>
      simp only [jsonLookup, h0, h1, h2, jsOrElse, optField]

/-- C3 witness: the claim's example — a 200-created body with only
`id = srv-1` (given as a string body, parsed first) resolves to `srv-1`. -/
theorem C3_extractJobId_spec_witness :
    extractJobId (.str ("\x7b\"id\":\"srv-1\",\"status\":\"EVS Checkin\"\x7d".toList)) =
      ("srv-1".toList) := by
  have h3 := (C3_extractJobId_spec
      ("\x7b\"id\":\"srv-1\",\"status\":\"EVS Checkin\"\x7d".toList) fsSrv1
      (.str ("srv-1".toList))).2.2.1 (.obj fsSrv1) (by decide)
  have h2 := (C3_extractJobId_spec [] fsSrv1 (.str ("srv-1".toList))).2.1
    (Or.inl rfl) rfl (by decide)
  exact h3.trans h2

/- ### Claim C4: creation failure on HTTP status >= 400. -/

/-- C4: when the creation POST resolves with a status of at least 400, the
invocation raises a creation failure whose message carries the status code
and the request URL, while the status, headers, body, run-time and job-id
outputs recorded before the raise remain set. -/
theorem C4_creation_failure (url : Str) (res : Resp) (e1 e2 : Nat) (o0 : NodeOutputs)
    (h : 400 ≤ res.status) :
    ∃ o, executePostPhase url res e1 e2 o0 = (o, some (creationErrorMsg res.status url)) ∧
      o.status = some res.status ∧
      o.headers = some res.headers ∧
      o.body = some (prettyBody res.data res.headers) ∧
      o.jobId = some (extractJobId res.data) ∧
      o.runTime = some e2 ∧
      url <:+ creationErrorMsg res.status url ∧
      natToDec res.status <:+: creationErrorMsg res.status url := by
  unfold executePostPhase
  rw [if_pos h]
  refine ⟨_, rfl, rfl, rfl, rfl, rfl, rfl, ?_, ?_⟩
  · exact ⟨("HTTP ".toList) ++ natToDec res.status ++ (" POST ".toList),
      by simp [creationErrorMsg, List.append_assoc]⟩
  · exact ⟨("HTTP ".toList), (" POST ".toList) ++ url,
      by simp [creationErrorMsg, List.append_assoc]⟩

/-- C4 witness: a concrete 500 creation response. -/
theorem C4_creation_failure_witness :
    ∃ o, executePostPhase urlEx respEx500 7 9 ({} : NodeOutputs) =
      (o, some (creationErrorMsg respEx500.status urlEx)) ∧
      o.status = some respEx500.status ∧
      o.headers = some respEx500.headers ∧
      o.body = some (prettyBody respEx500.data respEx500.headers) ∧
      o.jobId = some (extractJobId respEx500.data) ∧
      o.runTime = some 9 ∧
      urlEx <:+ creationErrorMsg respEx500.status urlEx ∧
      natToDec respEx500.status <:+: creationErrorMsg respEx500.status urlEx :=
  C4_creation_failure urlEx respEx500 7 9 {} (by decide)

/- ### Claim C5: normalizeBase. -/

/-- C5 counterexample: variant 1 is not idempotent (stripping trailing
slashes can expose trailing whitespace that a second pass trims), its
result need not end with the API root, and variant 2 appends rather than
truncates when the API root occurs mid-path. -/
theorem C5_normalizeBase_counterexample :
    normalizeBase1 (normalizeBase1 ("a /".toList)) ≠ normalizeBase1 ("a /".toList) ∧
    ¬ (apiRoot <:+ normalizeBase1 ("http://h".toList)) ∧
    normalizeBase2 ("http://h/evsconn/v1/x".toList) =
      ("http://h/evsconn/v1/x/evsconn/v1".toList) := by decide

/-- C5 (amended): variant 1 of `normalizeBase` only trims and strips
trailing slashes — it is neither idempotent in general nor guaranteed to
end with the API root. Variant 2 returns the URL unchanged when it already
ends with `/evsconn/v1` and otherwise appends that segment (it never
truncates after a mid-path occurrence); variant 2 is idempotent and its
result always ends with the API root segment. -/
theorem C5_normalizeBase2_spec (u : Str) :
    normalizeBase2 (normalizeBase2 u) = normalizeBase2 u ∧
    apiRoot <:+ normalizeBase2 u :=
  ⟨normalizeBase2_idem u, normalizeBase2_endsWith u⟩

/- ### Claim C6: job-name derivation. -/

/-- C6 counterexample: for a path ending in a separator the derivation
falls back to the whole input, not to the last non-empty segment. -/
theorem C6_jobName_counterexample :
    jobNameFromPath ("a/b/".toList) = ("a/b/".toList) ∧
    ("a/b/".toList) ≠ ("b".toList) := by decide

/-- C6 (amended): the derivation splits on both slash styles and returns
the last segment. For a path without separators (or an empty path) that is
the path itself; for a path whose last segment is non-empty it is that
segment; but for a path ending in a separator the last segment is empty
and the derivation falls back to the whole input path, not to the last
non-empty segment. -/
theorem C6_jobNameFromPath_spec (path pre seg : Str) :
    ((∀ c ∈ path, isPathSep c = false) → jobNameFromPath path = path) ∧
    (∀ c, isPathSep c = true → (∀ d ∈ seg, isPathSep d = false) → seg ≠ [] →
      path = pre ++ c :: seg → jobNameFromPath path = seg) ∧
    (∀ c, isPathSep c = true → path = pre ++ [c] → jobNameFromPath path = path) := by
  refine ⟨?_, ?_, ?_⟩
  · intro h
    rw [jobNameFromPath_eq_lastRun, lastRun_no_sep h]
    split <;> rfl
  · intro c hc hseg hne hpath
    subst hpath
    rw [jobNameFromPath_eq_lastRun]
    have hlr : lastRun isPathSep (pre ++ c :: seg) = seg := by
      unfold lastRun
      have hrev : (pre ++ c :: seg).reverse = seg.reverse ++ c :: pre.reverse := by
        rw [List.reverse_append, List.reverse_cons, List.append_assoc]
        rfl
      rw [hrev, takeWhile_append_fail pre.reverse
        (fun x hx => by simp [hseg x (by simpa using hx)]) (by simp [hc]),
        List.reverse_reverse]
    rw [hlr, if_neg hne]
  · intro c hc hpath
    subst hpath
    rw [jobNameFromPath_eq_lastRun]
    have hlr : lastRun isPathSep (pre ++ [c]) = [] := by
      unfold lastRun
      have hrev : (pre ++ [c]).reverse = c :: pre.reverse := by
        rw [List.reverse_append]
        rfl
      rw [hrev, List.takeWhile_cons_of_neg (by simp [hc])]
      rfl
    rw [hlr, if_pos rfl]

/-- C6 witness: a backslash path yields its final segment; a separator-free
path yields itself. -/
theorem C6_jobNameFromPath_spec_witness :
    jobNameFromPath ("C:\\media\\clip01.mov".toList) = ("clip01.mov".toList) ∧
    jobNameFromPath ("file.mov".toList) = ("file.mov".toList) :=
  ⟨(C6_jobNameFromPath_spec ("C:\\media\\clip01.mov".toList) ("C:\\media".toList)
      ("clip01.mov".toList)).2.1 '\\' (by decide) (by decide) (by decide) (by decide),
   (C6_jobNameFromPath_spec ("file.mov".toList) [] []).1 (by decide)⟩

/- ### Claim C7: parseMetadata totality and empty results. -/

theorem jsonParse_nil : jsonParse [] = none := rfl

theorem kvMatch_none_of_no_sep {p : Str} (h : ∀ c ∈ p, c ≠ '=' ∧ c ≠ ':') :
    kvMatch p = none := by
  unfold kvMatch
  cases hd : p.dropWhile (fun c => !(isKVSpecial c)) with
  | nil => rfl
  | cons c after =>
    have hc_mem : c ∈ p := by
      have hsuf : List.IsSuffix (c :: after) p := hd ▸ List.dropWhile_suffix _
      exact hsuf.subset (List.mem_cons_self c after)
    have hspec : isKVSpecial c = true := by
      have := dropWhile_head_false hd
      simpa using this
    have hcc := h c hc_mem
    have hch : c = '#' := by
      unfold isKVSpecial at hspec
      rcases Bool.or_eq_true_iff.mp hspec with h1 | h1
      · rcases Bool.or_eq_true_iff.mp h1 with h2 | h2
        · exact absurd (eq_of_beq h2) hcc.1
        · exact absurd (eq_of_beq h2) hcc.2
      · exact eq_of_beq h1
    subst hch
    by_cases htw : p.takeWhile (fun c => !(isKVSpecial c)) = []
    · simp [htw]
    · simp [htw]

theorem splitParts_mem_subset {txt part : Str} (hpart : part ∈ splitParts txt) :
    ∀ c ∈ part, c ∈ txt := by
  intro c hc
  unfold splitParts at hpart
  have h1 := List.mem_of_mem_filter hpart
  rcases List.mem_map.mp h1 with ⟨x, hx, hxe⟩
  subst hxe
  exact jsSplit_mem_subset isMetaSep txt x hx c (jsTrim_subset x c hc)

theorem lineFallback_no_sep {txt : Str} (h : ∀ c ∈ txt, c ≠ '=' ∧ c ≠ ':') :
    lineFallback txt = [] := by
  unfold lineFallback
  rw [List.filterMap_eq_nil_iff]
  intro part hpart
  rw [kvMatch_none_of_no_sep (fun c hc => h c (splitParts_mem_subset hpart c hc))]
  rfl

/-- C7 counterexample: `a=b` is not parsable as structured data, yet
`parseMetadata` does not return "no metadata" — the line-based fallback
produces an entry. -/
theorem C7_parseMetadata_counterexample :
    jsonParse (jsTrim ("a=b".toList)) = none ∧
    parseMetadata ("a=b".toList) = [mdEntry ("a".toList) ("b".toList)] ∧
    parseMetadata ("a=b".toList) ≠ [] := by decide

/-- C7 (amended): `parseMetadata` never throws — it is a total function;
when the raw input is blank it returns no metadata, and when structured
parsing fails and the text contains no `=`/`:` separator (so the
line-based `key=value` fallback finds nothing either) it returns no
metadata; in particular `parseMetadata('not json')` yields no metadata.
(When parsing fails but the text does contain `key=value` parts, the
fallback produces entries instead of returning none.) -/
theorem C7_parseMetadata_spec (raw : Str) :
    (jsTrim raw = [] → parseMetadata raw = []) ∧
    (jsonParse (jsTrim raw) = none → (∀ c ∈ raw, c ≠ '=' ∧ c ≠ ':') →
      parseMetadata raw = []) := by
  constructor
  · intro h
    unfold parseMetadata
    by_cases hr : raw = []
    · rw [if_pos hr]
    · rw [if_neg hr, if_pos h]
  · intro hp hsep
    unfold parseMetadata
    by_cases hr : raw = []
    · rw [if_pos hr]
    · rw [if_neg hr]
      by_cases ht : jsTrim raw = []
      · rw [if_pos ht]
      · rw [if_neg ht]
        simp only [hp]
        exact lineFallback_no_sep (fun c hc => hsep c (jsTrim_subset raw c hc))

/-- C7 witness: `parseMetadata('not json')` yields no metadata. -/
theorem C7_parseMetadata_spec_witness :
    parseMetadata ("not json".toList) = [] :=
  (C7_parseMetadata_spec ("not json".toList)).2 (by decide) (by decide)

/- ### Claim C8: metadata normalization shapes. -/

/-- C8 counterexample: an element of a parsed JSON array that has no
usable key is kept as-is, not dropped. -/
theorem C8_metadata_counterexample :
    parseMetadata ("[\x7b\"value\":\"x\"\x7d]".toList) =
      [Json.obj (.cons ("value".toList) (.str ("x".toList)) .nil)] ∧
    jsonLookup (Json.obj (.cons ("value".toList) (.str ("x".toList)) .nil))
      ("id".toList) = none := by decide

/-- C8 (amended): a parsed JSON array is returned as-is — entries missing
a usable key are kept, not dropped; a map input is converted to the
id/name/value list form with values coerced to string; and only the
line-based fallback guarantees a key: on parse failure every produced
entry has the id/name/value shape. -/
theorem C8_parseMetadata_shapes (raw : Str) (xs : JsonList) (fs : JsonFields) :
    (jsonParse (jsTrim raw) = some (.arr xs) → parseMetadata raw = xs.toList) ∧
    (jsonParse (jsTrim raw) = some (.obj fs) →
      parseMetadata raw = fs.toPairs.map (fun kv => mdEntry kv.1 (jsToString kv.2))) ∧
    (jsonParse (jsTrim raw) = none →
      ∀ e ∈ parseMetadata raw, ∃ k v, e = mdEntry k v) := by
  refine ⟨?_, ?_, ?_⟩
  · intro hp
    have ht : jsTrim raw ≠ [] := by
      intro h0
      rw [h0, jsonParse_nil] at hp
      exact Option.noConfusion hp
    have hr : raw ≠ [] := by
      intro h0
      subst h0
      exact ht rfl
    unfold parseMetadata
    rw [if_neg hr, if_neg ht]
    simp only [hp]
  · intro hp
    have ht : jsTrim raw ≠ [] := by
      intro h0
      rw [h0, jsonParse_nil] at hp
      exact Option.noConfusion hp
    have hr : raw ≠ [] := by
      intro h0
      subst h0
      exact ht rfl
    unfold parseMetadata
    rw [if_neg hr, if_neg ht]
    simp only [hp]
  · intro hp e he
    unfold parseMetadata at he
    by_cases hr : raw = []
    · rw [if_pos hr] at he
      simp at he
    · rw [if_neg hr] at he
      by_cases ht : jsTrim raw = []
      · rw [if_pos ht] at he
        simp at he
      · rw [if_neg ht] at he
        simp only [hp] at he
        unfold lineFallback at he
        rcases List.mem_filterMap.mp he with ⟨part, _, hmap⟩
        cases hkv : kvMatch part with
        | none =>
          rw [hkv] at hmap
          exact Option.noConfusion hmap
        | some kv =>
          rw [hkv] at hmap
          refine ⟨kv.1, kv.2, ?_⟩
          injection hmap with h
          exact h.symm

/-- C8 witness: the spec's map example converts to one keyed entry with a
string-coerced value. -/
theorem C8_parseMetadata_shapes_witness :
    parseMetadata ("\x7b\"show\":\"Sports\"\x7d".toList) =
      [mdEntry ("show".toList) ("Sports".toList)] :=
  (C8_parseMetadata_shapes ("\x7b\"show\":\"Sports\"\x7d".toList) .nil
    (.cons ("show".toList) (.str ("Sports".toList)) .nil)).2.1 (by decide)

/- ### Claim C9: payload assembly. -/

theorem cleanPayload_values (entries : List (Str × Option Json)) :
    ∀ kv ∈ cleanPayload entries, keepJson kv.2 = true := by
  intro kv hkv
  unfold cleanPayload at hkv
  rcases List.mem_filterMap.mp hkv with ⟨⟨k, ov⟩, _, hmap⟩
  cases ov with
  | none => exact Option.noConfusion hmap
  | some v =>
    dsimp only at hmap
    by_cases hk : keepJson v = true
    · rw [if_pos hk] at hmap
      injection hmap with h
      rw [← h]
      exact hk
    · rw [if_neg hk] at hmap
      exact Option.noConfusion hmap

theorem keepJson_str {s : Str} (h : jsTrim s ≠ []) : keepJson (.str s) = true := by
  simp only [keepJson]
  simp [List.isEmpty_iff, h]

theorem keepJson_arr_of_ne_nil {l : List Json} (h : l ≠ []) :
    keepJson (.arr (JsonList.ofList l)) = true := by
  cases l with
  | nil => exact absurd rfl h
  | cons a l2 => rfl

theorem hexDigitChar_not_space (m : Nat) (hm : m < 16) :
    isSpaceJS (hexDigitChar m) = false := by
  interval_cases m <;> decide

theorem jsHexCore_chars (fuel : Nat) :
    ∀ (n : Nat), ∀ c ∈ jsHexCore fuel n, isSpaceJS c = false := by
  induction fuel with
  | zero =>
    intro n c hc
    simp [jsHexCore] at hc
  | succ fuel ih =>
    intro n c hc
    unfold jsHexCore at hc
    by_cases hn : n = 0
    · rw [if_pos hn] at hc
      simp at hc
    · rw [if_neg hn] at hc
      rcases List.mem_append.mp hc with h1 | h1
      · exact ih (n / 16) c h1
      · have hce : c = hexDigitChar (n % 16) := by simpa using h1
        rw [hce]
        exact hexDigitChar_not_space _ (Nat.mod_lt n (by norm_num))

theorem jsHexNat_ne_nil (n : Nat) : jsHexNat n ≠ [] := by
  unfold jsHexNat
  by_cases hn : n = 0
  · rw [if_pos hn]
    decide
  · rw [if_neg hn]
    cases n with
    | zero => exact absurd rfl hn
    | succ k =>
      unfold jsHexCore
      rw [if_neg hn]
      simp

theorem jsHexNat_chars (n : Nat) : ∀ c ∈ jsHexNat n, isSpaceJS c = false := by
  unfold jsHexNat
  by_cases hn : n = 0
  · rw [if_pos hn]
    intro c hc
    simp at hc
    rw [hc]
    decide
  · rw [if_neg hn]
    exact jsHexCore_chars n n

theorem generateClientId_nonblank (t r : Nat) : jsTrim (generateClientId t r) ≠ [] := by
  unfold generateClientId
  cases hh : jsHexNat t with
  | nil => exact absurd hh (jsHexNat_ne_nil t)
  | cons c cs =>
    have hcs : isSpaceJS c = false :=
      jsHexNat_chars t c (by rw [hh]; exact List.mem_cons_self c cs)
    have htake : (c :: (cs ++ padStart 8 '0' (jsHexNat r))).take 24 =
        c :: (cs ++ padStart 8 '0' (jsHexNat r)).take 23 := rfl
    rw [List.cons_append, htake]
    exact jsTrim_ne_nil_of_mem (List.mem_cons_self _ _) hcs

theorem lastRun_nonblank {ft : Str} {l : Str}
    (hl : lastRun isPathSep (jsTrim ft) = l) (hlne : l ≠ []) :
    jsTrim l ≠ [] := by
  have hrev : l.reverse = ((jsTrim ft).reverse).takeWhile (fun c => !(isPathSep c)) := by
    rw [← hl]
    unfold lastRun
    rw [List.reverse_reverse]
  cases hc : l.reverse with
  | nil => exact absurd (List.reverse_eq_nil_iff.mp hc) hlne
  | cons c s =>
    rw [hc] at hrev
    cases hrev2 : (jsTrim ft).reverse with
    | nil =>
      rw [hrev2] at hrev
      simp at hrev
    | cons a as =>
      rw [hrev2] at hrev
      by_cases hqa : isPathSep a = false
      · rw [List.takeWhile_cons_of_pos (p := fun c => !(isPathSep c)) (by simp [hqa])] at hrev
        have hca : c = a := by
          injection hrev with h1 _
        have hsp : isSpaceJS a = false := by
          have hteq : (jsTrim ft).reverse = (trimLeft ft).reverse.dropWhile isSpaceJS := by
            unfold jsTrim trimRight
            rw [List.reverse_reverse]
          rw [hrev2] at hteq
          exact dropWhile_head_false hteq.symm
        have hmem : c ∈ l := by
          have : c ∈ l.reverse := by rw [hc]; exact List.mem_cons_self c s
          simpa using this
        rw [hca] at hmem
        exact jsTrim_ne_nil_of_mem hmem hsp
      · have hqa2 : isPathSep a = true := by
          revert hqa
          cases isPathSep a <;> simp
        rw [List.takeWhile_cons_of_neg (p := fun c => !(isPathSep c))
          (by simp [hqa2])] at hrev
        exact List.noConfusion hrev

theorem jobName_nonblank {ft : Str} (h : jsTrim ft ≠ []) :
    jsTrim (jobNameFromPath (jsTrim ft)) ≠ [] := by
  rw [jobNameFromPath_eq_lastRun]
  by_cases hlr : lastRun isPathSep (jsTrim ft) = []
  · rw [if_pos hlr, jsTrim_idem]
    exact h
  · rw [if_neg hlr]
    exact lastRun_nonblank rfl hlr

/-- C9 counterexample: variant 1 sends no `id` field at all; part_002
always serializes the `metadata` field, sending an empty list when no
metadata was supplied; and the polling variant includes a
`metadatasetName` of `general` even though the metadata-set input was
blank, as soon as any metadata is present. -/
theorem C9_payload_counterexample :
    (("id".toList) ∉ (payloadV1 ("T".toList) ("1".toList) [] [] ("f.mov".toList) []).map Prod.fst) ∧
    (("metadata".toList, Json.arr .nil) ∈
      definedFields (payloadP2 ("T".toList) ("1".toList) [] [] ("f.mov".toList) [])) ∧
    (("metadatasetName".toList, Json.str ("general".toList)) ∈
      payloadPolling ("cid1".toList) ("T".toList) ("1".toList) [] []
        ("f.mov".toList) ("a=b".toList)) := by decide

/-- C9 (amended): in the polling variant, the cleaned payload's keys are
exactly: `id`, `name`, then `metadata` when the metadata list is
non-empty, then `targetName`, `targetId`, then `xsquarePriority` when the
priority input is non-blank, then `metadatasetName` unless both the
metadata-set input is blank and the metadata list empty (a blank input
with non-empty metadata yields the default `general`), then
`fileToTransfer`; `marker` is always dropped, and no serialized value is
null, a blank string or an empty list. (The other variants differ:
variant 1 sends no `id`, and part_002 always sends `metadata`, even
empty — see the counterexample.) -/
theorem C9_payload_spec (t r : Nat) (tn tid prio ms ft meta : Str)
    (htn : jsTrim tn ≠ []) (htid : jsTrim tid ≠ []) (hft : jsTrim ft ≠ []) :
    (payloadPolling (generateClientId t r) tn tid prio ms ft meta).map Prod.fst =
      ("id".toList) :: ("name".toList) ::
        ((if parseMetadata meta = [] then [] else [("metadata".toList)]) ++
          ("targetName".toList) :: ("targetId".toList) ::
          ((if jsTrim prio = [] then [] else [("xsquarePriority".toList)]) ++
            (if jsTrim ms = [] ∧ parseMetadata meta = [] then []
              else [("metadatasetName".toList)]) ++
            [("fileToTransfer".toList)])) ∧
    (∀ kv ∈ payloadPolling (generateClientId t r) tn tid prio ms ft meta,
      keepJson kv.2 = true) := by
  have hkc : keepJson (.str (generateClientId t r)) = true :=
    keepJson_str (generateClientId_nonblank t r)
  have hkn : keepJson (.str (jobNameFromPath (jsTrim ft))) = true :=
    keepJson_str (jobName_nonblank hft)
  have hktn : keepJson (.str (jsTrim tn)) = true :=
    keepJson_str (by rw [jsTrim_idem]; exact htn)
  have hktid : keepJson (.str (jsTrim tid)) = true :=
    keepJson_str (by rw [jsTrim_idem]; exact htid)
  have hkft : keepJson (.str (jsTrim ft)) = true :=
    keepJson_str (by rw [jsTrim_idem]; exact hft)
  have hmarker : keepJson (Json.arr .nil) = false := rfl
  have hkg : keepJson (.str (['g', 'e', 'n', 'e', 'r', 'a', 'l'])) = true := by decide
  have hMD : ∀ (_ : parseMetadata meta ≠ []),
      keepJson (.arr (JsonList.ofList (parseMetadata meta))) = true :=
    fun h => keepJson_arr_of_ne_nil h
  have hPR : ∀ (_ : jsTrim prio ≠ []), keepJson (.str (jsTrim prio)) = true :=
    fun h => keepJson_str (by rw [jsTrim_idem]; exact h)
  have hMS : ∀ (_ : jsTrim ms ≠ []), keepJson (.str (jsTrim ms)) = true :=
    fun h => keepJson_str (by rw [jsTrim_idem]; exact h)
  refine ⟨?_, cleanPayload_values _⟩
  by_cases hm : parseMetadata meta = []
  · by_cases hp : jsTrim prio = []
    · by_cases hms : jsTrim ms = []
      · simp [payloadPolling, cleanPayload, resolvedMetadatasetName, hm, hp, hms,
          hkc, hkn, hktn, hktid, hkft, hmarker]
      · simp [payloadPolling, cleanPayload, resolvedMetadatasetName, hm, hp, hms,
          hkc, hkn, hktn, hktid, hkft, hmarker, hMS hms]
    · by_cases hms : jsTrim ms = []
      · simp [payloadPolling, cleanPayload, resolvedMetadatasetName, hm, hp, hms,
          hkc, hkn, hktn, hktid, hkft, hmarker, hPR hp]
      · simp [payloadPolling, cleanPayload, resolvedMetadatasetName, hm, hp, hms,
          hkc, hkn, hktn, hktid, hkft, hmarker, hPR hp, hMS hms]
  · by_cases hp : jsTrim prio = []
    · by_cases hms : jsTrim ms = []
      · simp [payloadPolling, cleanPayload, resolvedMetadatasetName, hm, hp, hms,
          hkc, hkn, hktn, hktid, hkft, hmarker, hMD hm, hkg]
      · simp [payloadPolling, cleanPayload, resolvedMetadatasetName, hm, hp, hms,
          hkc, hkn, hktn, hktid, hkft, hmarker, hMD hm, hMS hms]
    · by_cases hms : jsTrim ms = []
      · simp [payloadPolling, cleanPayload, resolvedMetadatasetName, hm, hp, hms,
          hkc, hkn, hktn, hktid, hkft, hmarker, hMD hm, hPR hp, hkg]
      · simp [payloadPolling, cleanPayload, resolvedMetadatasetName, hm, hp, hms,
          hkc, hkn, hktn, hktid, hkft, hmarker, hMD hm, hPR hp, hMS hms]

/-- C9 witness: with blank optional inputs the serialized keys are exactly
the five mandatory fields. -/
theorem C9_payload_spec_witness :
    (payloadPolling (generateClientId 1 2) ("T".toList) ("1".toList) [] []
        ("f.mov".toList) []).map Prod.fst =
      [("id".toList), ("name".toList), ("targetName".toList), ("targetId".toList),
        ("fileToTransfer".toList)] := by
  have h := (C9_payload_spec 1 2 ("T".toList) ("1".toList) [] [] ("f.mov".toList) []
    (by decide) (by decide) (by decide)).1
  exact h.trans (by decide)

/- ### Claim C10: progressive POST retry on HTTP 415. -/

/-- C10: `postProgressive` sends the identical POST up to four times, one
per Content-Type header profile: it returns the first response whose
status is not 415 after exactly `k+1` transmissions when the first `k`
responses were 415, and after all four responses are 415 it returns the
fourth; in every case at most four requests are transmitted. -/
theorem C10_postProgressive_spec (send : Nat → Resp) :
    (postProgressive send).2 ≤ 4 ∧
    (∀ k, k < 4 → (∀ j, j < k → (send j).status = 415) → (send k).status ≠ 415 →
      postProgressive send = (send k, k + 1)) ∧
    ((∀ j, j < 4 → (send j).status = 415) → postProgressive send = (send 3, 4)) := by
  refine ⟨?_, ?_, ?_⟩
  · simp only [postProgressive, contentTypeProfiles, postProgAux]
    split_ifs <;> simp
  · intro k hk hbefore hnot
    interval_cases k
    · simp only [postProgressive, contentTypeProfiles, postProgAux]
      rw [if_pos hnot]
    · have h0 := hbefore 0 (by norm_num)
      simp only [postProgressive, contentTypeProfiles, postProgAux]
      rw [if_neg (not_not_intro h0), if_pos hnot]
    · have h0 := hbefore 0 (by norm_num)
      have h1 := hbefore 1 (by norm_num)
      simp only [postProgressive, contentTypeProfiles, postProgAux]
      rw [if_neg (not_not_intro h0), if_neg (not_not_intro h1), if_pos hnot]
    · have h0 := hbefore 0 (by norm_num)
      have h1 := hbefore 1 (by norm_num)
      have h2 := hbefore 2 (by norm_num)
      simp only [postProgressive, contentTypeProfiles, postProgAux]
      rw [if_neg (not_not_intro h0), if_neg (not_not_intro h1),
        if_neg (not_not_intro h2), if_pos hnot]
  · intro hall
    have h0 := hall 0 (by norm_num)
    have h1 := hall 1 (by norm_num)
    have h2 := hall 2 (by norm_num)
    have h3 := hall 3 (by norm_num)
    simp only [postProgressive, contentTypeProfiles, postProgAux]
    rw [if_neg (not_not_intro h0), if_neg (not_not_intro h1),
      if_neg (not_not_intro h2), if_neg (not_not_intro h3)]
    rfl

/-- C10 witness: one 415 response followed by a 201 gives the second
response after exactly two transmissions. -/
theorem C10_postProgressive_spec_witness :
    postProgressive sendEx = (sendEx 1, 2) :=
  (C10_postProgressive_spec sendEx).2.1 1 (by norm_num)
    (by
      intro j hj
      interval_cases j
      rfl)
    (by decide)
